import Mathlib

/-!
Verification of the directory-listing CLI (Go, package main).

The program is a single-pass pipeline: read directory entries, classify and
filter them, sort, format, print.  The repository holds two near-identical
variants of the program: the table layout (main.go) and the two-section
layout (the unnamed variant file, which also defines truncate and the
50-character name limit).  Both share the argument loop, the classifier,
the filters, the comparator and the size formatter; the shared parts are
embedded once below.

Modelling conventions:
* Go strings are modelled as Lean String / List Char, with an explicit
  UTF-8 byte view (strBytes) where the source operates on bytes.  Go
  compares strings byte by byte; for UTF-8 encoded strings the byte order
  coincides with the code-point order used here.  strings.ToLower applies
  the Unicode case table rune by rune; that table is an external
  collaborator, so the sort-order theorem is quantified over the
  per-character lowering, and holds in particular at the real one.
* Filesystem metadata is abstracted into a DirChild record carrying exactly
  the observations the program makes: the base name, the entry type as
  reported by os.ReadDir (file, directory or symlink, mutually exclusive
  mode-type bits), whether e.Info() succeeds, the size that e.Info() reports,
  and, for symlinks, the directory flag of the resolved target when
  filepath.EvalSymlinks followed by os.Stat succeeds (none on any failure).
* fmt.Println output is modelled as a list of stdout lines; lipgloss style
  rendering is the identity on the wrapped text (an external decoration
  layer), so styled text is embedded as the bare text.
* Machine integers: sizes are non-negative int64 values, embedded as Nat.
-/

namespace Ls

/-- The mutually exclusive mode type of a directory child as reported by
os.ReadDir: regular file, directory, or symbolic link. -/
inductive FType where
  | file
  | dir
  | symlink
deriving DecidableEq, Repr

/-- One child of the listed directory, carrying exactly the metadata the
program reads: e.Name(), the mode type behind e.IsDir() and e.Type(),
whether e.Info() succeeds, the size e.Info() reports (the link's own size
for a symlink), and for symlinks the directory flag of the resolved target
when filepath.EvalSymlinks plus os.Stat succeed (none when either fails). -/
structure DirChild where
  name : String
  ftype : FType
  infoOk : Bool
  size : Nat
  resolved : Option Bool
deriving DecidableEq, Repr

/-- The entry record built by the classification loop (type entry in the
source): name, effective directory flag, symlink flag, size, hidden flag,
extension. -/
structure Entry where
  name : String
  isDir : Bool
  isSym : Bool
  size : Nat
  dot : Bool
  ext : String
deriving DecidableEq, Repr

/-- Embeds strings.HasPrefix s p. -/
def hasPrefixStr (s p : String) : Bool :=
  p.data.isPrefixOf s.data

/-- Embeds filepath.Ext for a base name (no path separators): the suffix of
the name beginning at the final dot, empty when the name has no dot. -/
def filepathExt : List Char → List Char
  | [] => []
  | c :: rest =>
    let r := filepathExt rest
    if r.isEmpty then (if c = '.' then c :: rest else []) else r

/-- Embeds strings.TrimPrefix s "." : drops one leading dot if present. -/
def trimDotPfx : List Char → List Char
  | '.' :: rest => rest
  | cs => cs

/-- The extension computed by the source for a non-directory entry:
strings.TrimPrefix(filepath.Ext(name), "."). -/
def extOf (name : String) : String :=
  String.mk (trimDotPfx (filepathExt name.data))

/-- Embeds Go's string less-than: lexicographic comparison, first differing
position decides (byte order equals code-point order in UTF-8). -/
def strLt : List Char → List Char → Bool
  | [], [] => false
  | [], _ :: _ => true
  | _ :: _, [] => false
  | a :: as, b :: bs => if a = b then strLt as bs else decide (a < b)

/-- The comparator passed to sort.Slice: when the directory flags differ the
directory sorts first, otherwise the lowered names decide.  strings.ToLower
lowers a string by applying the Unicode case table rune by rune; that table
is an external collaborator, so the comparator is parameterized by the
per-character lowering it applies. -/
def entLess (lower : Char → Char) (a b : Entry) : Bool :=
  if a.isDir != b.isDir then a.isDir
  else strLt (a.name.data.map lower) (b.name.data.map lower)

/-- The non-strict order a correct sort with comparator entLess realizes:
a may come before b exactly when entLess does not demand b before a. -/
def entLE (lower : Char → Char) (a b : Entry) : Prop :=
  entLess lower b a = false

instance (lower : Char → Char) : DecidableRel (entLE lower) :=
  fun a b => Bool.decEq (entLess lower b a) false

/-- Embeds the sort.Slice call on the classified items for a given
per-character lowering: the items reordered so that no element must precede
an earlier one under entLess, realized by stable insertion sort. -/
def sortEntriesWith (lower : Char → Char) (items : List Entry) : List Entry :=
  items.insertionSort (entLE lower)

/-- The sort instantiated at the ASCII-range fragment of the lowering
(Char.toLower): the order-sensitive result (C1) is proved below for an
arbitrary lowering, and the remaining results depend only on the length,
membership and emptiness of the sorted list, which no lowering affects. -/
def sortEntries (items : List Entry) : List Entry :=
  sortEntriesWith Char.toLower items

/-- The effective directory flag of a child (local isDir of the source
loop): e.IsDir(), overridden for a symlink by the resolved target's
directory flag when filepath.EvalSymlinks and os.Stat both succeed; on any
resolution failure the original flag (false for a symlink) is kept. -/
def effectiveIsDir (c : DirChild) : Bool :=
  let isDir0 := c.ftype == FType.dir
  if c.ftype == FType.symlink then
    match c.resolved with
    | some d => d
    | none => isDir0
  else isDir0

/-- The classification loop of main: skip hidden children unless showAll,
skip children whose Info() fails, resolve symlinks, skip directories in
files-only mode, and build the entry record. -/
def buildItems (showAll filesOnly : Bool) : List DirChild → List Entry
  | [] => []
  | c :: cs =>
    let isDot := hasPrefixStr c.name "."
    if isDot && !showAll then buildItems showAll filesOnly cs
    else if !c.infoOk then buildItems showAll filesOnly cs
    else
      let isDir := effectiveIsDir c
      if filesOnly && isDir then buildItems showAll filesOnly cs
      else
        { name := c.name, isDir := isDir, isSym := c.ftype == FType.symlink,
          size := c.size, dot := isDot,
          ext := if isDir then "" else extOf c.name }
          :: buildItems showAll filesOnly cs

/-- The listed entries of one invocation: classification then sort. -/
def listDir (showAll filesOnly : Bool) (children : List DirChild) : List Entry :=
  sortEntries (buildItems showAll filesOnly children)

/-- int(math.Log(float64 b) / math.Log 1024) for b not 0: the floor of the
base-1024 logarithm of b, written as exact threshold comparisons and capped
at 6.  The float computation can deviate from this floor only just below
1024^5 and 1024^6, where accumulated rounding may step the quotient over
the next integer; every such deviation, like the cap, lands at 5 or more
and is therefore erased by the subsequent clamp to index 4 (see clampIdx). -/
def log1024floor (b : Nat) : Nat :=
  if b < 1024 then 0
  else if b < 1024 ^ 2 then 1
  else if b < 1024 ^ 3 then 2
  else if b < 1024 ^ 4 then 3
  else if b < 1024 ^ 5 then 4
  else if b < 1024 ^ 6 then 5
  else 6

/-- units := []string{"B", "K", "M", "G", "T"} -/
def sizeUnits : List String := ["B", "K", "M", "G", "T"]

/-- The unit index: the floor log clamped by the source's bound check
(i >= len(units) resets i to len(units)-1).  The program takes the log of
float64(b) rather than of b; the two floors can differ only where b and
float64(b) straddle a power of 1024 at or above 2^53, that is just below
1024^6, and there both floors are sent to 4 by the clamp. -/
def clampIdx (b : Nat) : Nat :=
  let i := log1024floor b
  if 5 ≤ i then 4 else i

/-- Round num/den to the nearest integer with ties to even: the rounding
IEEE-754 applies when converting an integer to float64, and the rounding
fmt applies when printing an exactly-represented quotient with %.1f. -/
def roundHalfToEven (num den : Nat) : Nat :=
  let q := num / den
  let r := num % den
  if 2 * r < den then q
  else if den < 2 * r then q + 1
  else if q % 2 = 0 then q else q + 1

/-- The spacing of consecutive float64 values at magnitude b (for b up to
2^64): 1 while b fits the 53-bit mantissa, then one power of two per extra
bit. -/
def ulpOf (b : Nat) : Nat :=
  if b < 2 ^ 53 then 1
  else if b < 2 ^ 54 then 2
  else if b < 2 ^ 55 then 2 ^ 2
  else if b < 2 ^ 56 then 2 ^ 3
  else if b < 2 ^ 57 then 2 ^ 4
  else if b < 2 ^ 58 then 2 ^ 5
  else if b < 2 ^ 59 then 2 ^ 6
  else if b < 2 ^ 60 then 2 ^ 7
  else if b < 2 ^ 61 then 2 ^ 8
  else if b < 2 ^ 62 then 2 ^ 9
  else if b < 2 ^ 63 then 2 ^ 10
  else 2 ^ 11

/-- float64(b) for a non-negative int64 b: round half to even to a multiple
of the ulp; exact below 2^53. -/
def float64Nat (b : Nat) : Nat :=
  ulpOf b * roundHalfToEven b (ulpOf b)

/-- fmt.Sprintf("%.1f", val) for val = f / 1024^i with f a float64 value:
one decimal digit, correctly rounded (the quotient is exactly represented,
the divisor being a power of two). -/
def oneDecimal (f i : Nat) : String :=
  let d := roundHalfToEven (10 * f) (1024 ^ i)
  toString (d / 10) ++ "." ++ toString (d % 10)

/-- humanSizeParts of the table variant: the numeric text and the unit
text.  The float computation is embedded exactly: the unit index is the
clamped floor log (see clampIdx), val is float64(b) / 1024^i, a division by
a power of two and therefore exact, so val >= 10 is 10 * 1024^i <= f, and
int(val) truncates the exact quotient, which is Nat division of f.  The
bytes branch prints the integer b itself. -/
def humanSizeParts (b : Nat) : String × String :=
  if b = 0 then ("0", "B")
  else
    let i := clampIdx b
    if i = 0 then (toString b, "B")
    else
      let f := float64Nat b
      if 10 * 1024 ^ i ≤ f then (toString (f / 1024 ^ i), sizeUnits.getD i "B")
      else (oneDecimal f i, sizeUnits.getD i "B")

/-- humanSize of the two-section variant: identical branches, rendered as a
single string (number, space, unit). -/
def humanSize (b : Nat) : String :=
  (humanSizeParts b).1 ++ " " ++ (humanSizeParts b).2

/-- pad: right-pad with spaces up to width, no-op when already long enough. -/
def padStr (s : String) (width : Nat) : String :=
  if width ≤ s.length then s
  else s ++ String.mk (List.replicate (width - s.length) ' ')

/-- padLeft: left-pad with spaces up to width. -/
def padLeftStr (s : String) (width : Nat) : String :=
  if width ≤ s.length then s
  else String.mk (List.replicate (width - s.length) ' ') ++ s

/-- maxNameLen of the two-section variant. -/
def maxNameLen : Nat := 50

/-- The UTF-8 encoding of one character, as the list of its byte values. -/
def utf8Bytes (c : Char) : List Nat :=
  let n := c.toNat
  if n < 0x80 then [n]
  else if n < 0x800 then [0xC0 + n / 0x40, 0x80 + n % 0x40]
  else if n < 0x10000 then
    [0xE0 + n / 0x1000, 0x80 + (n / 0x40) % 0x40, 0x80 + n % 0x40]
  else
    [0xF0 + n / 0x40000, 0x80 + (n / 0x1000) % 0x40,
     0x80 + (n / 0x40) % 0x40, 0x80 + n % 0x40]

/-- The byte content of a Go string: the UTF-8 bytes of its characters.
len(s) in Go is the length of this list, and s[:k] is its k-byte prefix. -/
def strBytes (s : String) : List Nat :=
  s.data.flatMap utf8Bytes

/-- truncate of the two-section variant, at the byte level Go operates on:
a name of at most maxNameLen bytes is kept; a longer one becomes its first
maxNameLen - 1 bytes followed by the three-byte UTF-8 ellipsis E2 80 A6
(which can split a multibyte character at the cut). -/
def truncateBytes (bs : List Nat) : List Nat :=
  if bs.length ≤ maxNameLen then bs
  else bs.take (maxNameLen - 1) ++ [0xE2, 0x80, 0xA6]

/-- NAME column width: at least 4 (the header), else the longest name. -/
def maxNameOf (items : List Entry) : Nat :=
  items.foldl (fun m it => max m it.name.length) 4

/-- EXT column width: at least 3 (the header), else the longest extension. -/
def maxExtOf (items : List Entry) : Nat :=
  items.foldl (fun m it => max m it.ext.length) 3

/-- strings.Repeat of the box-drawing rule character. -/
def repChar (n : Nat) : String := String.mk (List.replicate n '─')

/-- The table header line (styles are identity). -/
def headerLine (maxName maxExt : Nat) : String :=
  "  " ++ padStr "TYPE" 4 ++ "  " ++ padStr "NAME" maxName ++ "  "
    ++ padStr "EXT" maxExt ++ "  " ++ padLeftStr "SIZE" 7

/-- The separator line under the header. -/
def sepLine (maxName maxExt : Nat) : String :=
  "  " ++ repChar 4 ++ "  " ++ repChar maxName ++ "  " ++ repChar maxExt
    ++ "  " ++ repChar 7

/-- One table row: type tag (symlink overrides), padded name, extension
column with a dash for the empty extension, size column with a dash for
directories. -/
def renderRow (maxName maxExt : Nat) (it : Entry) : String :=
  let tag := if it.isSym then "LINK" else if it.isDir then "DIR" else "FILE"
  let extField := if it.ext = "" then padStr "—" maxExt else padStr it.ext maxExt
  let sizeField :=
    if it.isDir then padLeftStr "—" 7
    else padLeftStr (humanSizeParts it.size).1 5
      ++ padLeftStr (humanSizeParts it.size).2 2
  "  " ++ padStr tag 4 ++ "  " ++ padStr it.name maxName ++ "  " ++ extField
    ++ "  " ++ sizeField

/-- dirCount of the render loop: entries counted as directories. -/
def countDirs (items : List Entry) : Nat :=
  (items.filter (fun it => it.isDir)).length

/-- fileCount of the render loop: entries counted as files. -/
def countFiles (items : List Entry) : Nat :=
  (items.filter (fun it => !it.isDir)).length

/-- fmt.Sprintf("%d dir", n) with "s" appended when n > 1; same for file. -/
def pluralize (n : Nat) (base : String) : String :=
  toString n ++ " " ++ base ++ (if 1 < n then "s" else "")

/-- strings.Join(parts, ", "). -/
def joinComma : List String → String
  | [] => ""
  | [x] => x
  | x :: xs => x ++ ", " ++ joinComma xs

/-- The footer text: dir and file counts, zero counts omitted. -/
def footerStr (dirCount fileCount : Nat) : String :=
  joinComma ((if 0 < dirCount then [pluralize dirCount "dir"] else [])
    ++ (if 0 < fileCount then [pluralize fileCount "file"] else []))

/-- The stdout lines printed for a non-empty listing: blank line, header,
separator, one row per entry, blank line, footer line, blank line. -/
def renderListing (items : List Entry) : List String :=
  [""] ++ [headerLine (maxNameOf items) (maxExtOf items),
           sepLine (maxNameOf items) (maxExtOf items)]
    ++ items.map (renderRow (maxNameOf items) (maxExtOf items))
    ++ ["", "  " ++ footerStr (countDirs items) (countFiles items), ""]

/-- The stdout lines after a successful os.ReadDir: the distinct empty
message when nothing survived filtering, otherwise the listing. -/
def listOutput (showAll filesOnly : Bool) (children : List DirChild) : List String :=
  let items := listDir showAll filesOnly children
  if items.isEmpty then ["  empty"] else renderListing items

/-- Result of the argument loop: -h or --help short-circuits to the usage
text; otherwise the two flags plus the target path (the last argument not
beginning with a dash wins; default "."). -/
inductive ParseResult where
  | help
  | run (showAll filesOnly : Bool) (target : String)
deriving DecidableEq, Repr

/-- The argument loop of main: the switch over os.Args[1:], where the
default case takes an argument as the target only when it does not begin
with a dash. -/
def parseLoop (showAll filesOnly : Bool) (target : String) : List String → ParseResult
  | [] => ParseResult.run showAll filesOnly target
  | a :: rest =>
    if a = "-a" ∨ a = "--all" then parseLoop true filesOnly target rest
    else if a = "-f" ∨ a = "--files" then parseLoop showAll true target rest
    else if a = "-h" ∨ a = "--help" then ParseResult.help
    else if hasPrefixStr a "-" then parseLoop showAll filesOnly target rest
    else parseLoop showAll filesOnly a rest

/-- Argument parsing from the initial state of main. -/
def parseArgs (args : List String) : ParseResult :=
  parseLoop false false "." args

/-- The usage text printed by -h / --help. -/
def usageLines : List String :=
  ["Usage: ls [options] [path]",
   "  -a, --all     show hidden files",
   "  -f, --files   files only",
   "  -h, --help    this message"]

/-- Observable outcome of one process invocation. -/
structure Output where
  stdoutLines : List String
  stderrLines : List String
  exitCode : Nat
deriving DecidableEq, Repr

/-- The whole program for one invocation, over a filesystem oracle mapping
the target path to the os.ReadDir outcome: help prints usage and exits 0; a
ReadDir error prints one error line to stderr and exits 1; otherwise the
listing is printed and the process exits 0. -/
def runLs (args : List String) (fs : String → Except String (List DirChild)) : Output :=
  match parseArgs args with
  | ParseResult.help => { stdoutLines := usageLines, stderrLines := [], exitCode := 0 }
  | ParseResult.run showAll filesOnly target =>
    match fs target with
    | Except.error msg =>
        { stdoutLines := [], stderrLines := ["  error: " ++ msg], exitCode := 1 }
    | Except.ok children =>
        { stdoutLines := listOutput showAll filesOnly children,
          stderrLines := [], exitCode := 0 }

theorem strLt_irrefl (x : List Char) : strLt x x = false := by
  induction x with
  | nil => rfl
  | cons a as ih => simp [strLt, ih]

theorem strLt_trans (x y z : List Char) (hxy : strLt x y = true)
    (hyz : strLt y z = true) : strLt x z = true := by
  induction x generalizing y z with
  | nil =>
    cases y with
    | nil => exact absurd hxy (by simp [strLt])
    | cons b bs =>
      cases z with
      | nil => exact absurd hyz (by simp [strLt])
      | cons c cs => rfl
  | cons a as ih =>
    cases y with
    | nil => exact absurd hxy (by simp [strLt])
    | cons b bs =>
      cases z with
      | nil => exact absurd hyz (by simp [strLt])
      | cons c cs =>
        simp only [strLt] at hxy hyz ⊢
        by_cases hab : a = b
        · subst hab
          simp only [if_pos rfl] at hxy
          by_cases hac : a = c
          · subst hac
            simp only [if_pos rfl] at hyz ⊢
            exact ih bs cs hxy hyz
          · simp only [if_neg hac] at hyz ⊢
            exact hyz
        · simp only [if_neg hab] at hxy
          have hab' : a < b := of_decide_eq_true hxy
          by_cases hbc : b = c
          · subst hbc
            simp only [if_neg hab]
            exact decide_eq_true hab'
          · simp only [if_neg hbc] at hyz
            have hbc' : b < c := of_decide_eq_true hyz
            have hac' : a < c := lt_trans hab' hbc'
            simp only [if_neg (ne_of_lt hac')]
            exact decide_eq_true hac'

theorem strLt_conn (x y : List Char) (hxy : strLt x y = false)
    (hyx : strLt y x = false) : x = y := by
  induction x generalizing y with
  | nil =>
    cases y with
    | nil => rfl
    | cons b bs => exact absurd hxy (by simp [strLt])
  | cons a as ih =>
    cases y with
    | nil => exact absurd hyx (by simp [strLt])
    | cons b bs =>
      simp only [strLt] at hxy hyx
      by_cases hab : a = b
      · subst hab
        simp only [if_pos rfl] at hxy hyx
        rw [ih bs hxy hyx]
      · simp only [if_neg hab, if_neg (Ne.symm hab)] at hxy hyx
        have h1 : ¬ a < b := of_decide_eq_false hxy
        have h2 : ¬ b < a := of_decide_eq_false hyx
        exact absurd (le_antisymm (le_of_not_lt h2) (le_of_not_lt h1)) hab

theorem strLt_notLt_trans (x y z : List Char) (hxy : strLt x y = false)
    (hyz : strLt y z = false) : strLt x z = false := by
  cases hxz : strLt x z with
  | false => rfl
  | true =>
    cases hyx : strLt y x with
    | true =>
      have h := strLt_trans y x z hyx hxz
      rw [h] at hyz
      cases hyz
    | false =>
      have hxy' := strLt_conn x y hxy hyx
      subst hxy'
      rw [hxz] at hyz
      cases hyz

theorem entLE_total (lower : Char → Char) (a b : Entry) :
    entLE lower a b ∨ entLE lower b a := by
  unfold entLE entLess
  cases ha : a.isDir <;> cases hb : b.isDir <;> simp [ha, hb]
  all_goals
    cases h : strLt (b.name.data.map lower) (a.name.data.map lower) with
    | false => exact Or.inl rfl
    | true =>
      right
      cases h2 : strLt (a.name.data.map lower) (b.name.data.map lower) with
      | false => rfl
      | true =>
        have := strLt_trans _ _ _ h h2
        rw [strLt_irrefl] at this
        cases this

theorem entLE_trans (lower : Char → Char) (a b c : Entry)
    (h1 : entLE lower a b) (h2 : entLE lower b c) : entLE lower a c := by
  unfold entLE entLess at h1 h2 ⊢
  cases ha : a.isDir <;> cases hb : b.isDir <;> cases hc : c.isDir <;>
    simp [ha, hb, hc] at h1 h2 ⊢ <;>
    exact strLt_notLt_trans _ _ _ h2 h1

theorem entLE_imp (lower : Char → Char) (a b : Entry) (h : entLE lower a b) :
    (b.isDir = true → a.isDir = true) ∧
    (a.isDir = b.isDir →
      strLt (b.name.data.map lower) (a.name.data.map lower) = false) := by
  unfold entLE entLess at h
  cases ha : a.isDir <;> cases hb : b.isDir <;> simp [ha, hb] at h ⊢ <;>
    exact h

/-- C1: for every per-character lowering - in particular the Unicode case
table strings.ToLower applies, an external collaborator the theorem
quantifies over - the rendered entries are a permutation of the classified
entries arranged so that, for any two of them, a directory never follows a
file, and two entries in the same group (equal effective directory flags)
appear in ascending order of their lowered names: the case-insensitive
ascending order of the program. -/
theorem c1_sort_order (lower : Char → Char) (items : List Entry) :
    (sortEntriesWith lower items).Perm items ∧
    (sortEntriesWith lower items).Pairwise (fun a b =>
      (b.isDir = true → a.isDir = true) ∧
      (a.isDir = b.isDir →
        strLt (b.name.data.map lower) (a.name.data.map lower) = false)) := by
  haveI : IsTotal Entry (entLE lower) := ⟨entLE_total lower⟩
  haveI : IsTrans Entry (entLE lower) := ⟨entLE_trans lower⟩
  constructor
  · exact List.perm_insertionSort (entLE lower) items
  · exact (List.sorted_insertionSort (entLE lower) items).imp
      (fun {a b} h => entLE_imp lower a b h)

theorem filepathExt_spec (cs : List Char) :
    (filepathExt cs = [] ∧ '.' ∉ cs) ∨
    (∃ pre t, cs = pre ++ '.' :: t ∧ '.' ∉ t ∧ filepathExt cs = '.' :: t) := by
  induction cs with
  | nil => exact Or.inl ⟨rfl, by simp⟩
  | cons c rest ih =>
    rcases ih with ⟨h1, h2⟩ | ⟨pre, t, hcs, ht, hfe⟩
    · by_cases hc : c = '.'
      · subst hc
        refine Or.inr ⟨[], rest, rfl, h2, ?_⟩
        simp [filepathExt, h1]
      · refine Or.inl ⟨?_, ?_⟩
        · simp [filepathExt, h1, hc]
        · simp [h2, Ne.symm hc]
    · refine Or.inr ⟨c :: pre, t, by rw [hcs]; rfl, ht, ?_⟩
      simp [filepathExt, hfe]

/-- C3 counterexample: the name .gitignore does not get an empty extension;
the leading dot is taken as the extension separator and the computed
extension is gitignore. -/
theorem c3_ext_counterexample :
    extOf ".gitignore" = "gitignore" ∧ ("gitignore" : String) ≠ "" := by
  constructor
  · rfl
  · decide

/-- C3 amended: for every non-directory entry the computed extension is the
text after the final dot of the name, excluding the dot, and it is empty
when the name contains no dot (the text after a trailing dot is empty as
well, as in the name foo.); a leading dot is treated as an extension
separator like any other dot, so .gitignore has extension gitignore. -/
theorem c3_ext_amended :
    (∀ name : List Char,
      (trimDotPfx (filepathExt name) = [] ∧ '.' ∉ name) ∨
      (∃ pre, name = pre ++ '.' :: trimDotPfx (filepathExt name) ∧
        '.' ∉ trimDotPfx (filepathExt name))) ∧
    (∀ (showAll filesOnly : Bool) (children : List DirChild) (e : Entry),
      e ∈ buildItems showAll filesOnly children → e.isDir = false →
      e.ext = extOf e.name) ∧
    extOf ".gitignore" = "gitignore" ∧ extOf "foo." = "" := by
  refine ⟨?_, ?_, rfl, rfl⟩
  · intro name
    rcases filepathExt_spec name with ⟨h1, h2⟩ | ⟨pre, t, hcs, ht, hfe⟩
    · exact Or.inl ⟨by rw [h1]; rfl, h2⟩
    · refine Or.inr ⟨pre, ?_, ?_⟩
      · rw [hfe]
        exact hcs
      · rw [hfe]
        exact ht
  · intro sa fo children
    induction children with
    | nil =>
      intro e he
      cases he
    | cons c cs ih =>
      intro e he hdir
      simp only [buildItems] at he
      split at he
      · exact ih e he hdir
      · split at he
        · exact ih e he hdir
        · split at he
          · exact ih e he hdir
          · rcases List.mem_cons.mp he with rfl | htail
            · simp only at hdir ⊢
              simp [hdir]
            · exact ih e htail hdir

/-- C3 amended witness: a listed regular file a.txt carries the computed
extension of its name, the text after the final dot. -/
theorem c3_ext_amended_witness :
    (⟨"a.txt", false, false, 3, false, "txt"⟩ : Entry).ext = extOf "a.txt" :=
  c3_ext_amended.2.1 false false [⟨"a.txt", FType.file, true, 3, none⟩]
    ⟨"a.txt", false, false, 3, false, "txt"⟩ (by decide) rfl

theorem utf8Bytes_ascii (c : Char) (h : c.toNat < 128) :
    utf8Bytes c = [c.toNat] := by
  unfold utf8Bytes
  rw [if_pos h]

theorem strBytes_ascii (l : List Char) (h : ∀ c ∈ l, c.toNat < 128) :
    l.flatMap utf8Bytes = l.map Char.toNat := by
  induction l with
  | nil => rfl
  | cons c cs ih =>
    have hc := h c (List.mem_cons_self c cs)
    have hcs : ∀ x ∈ cs, x.toNat < 128 :=
      fun x hx => h x (List.mem_cons_of_mem c hx)
    simp [List.flatMap_cons, utf8Bytes_ascii c hc, ih hcs]

/-- C6 counterexample: a name of thirty two-byte characters has only 30
characters, within the claimed 50-character limit, yet the program
truncates it, because len(s) and the slice s[:49] count bytes and the name
is 60 bytes long; so a name of at most 50 characters is not always
displayed unmodified. -/
theorem c6_truncate_counterexample :
    (String.mk (List.replicate 30 'é')).data.length = 30 ∧
    (strBytes (String.mk (List.replicate 30 'é'))).length = 60 ∧
    truncateBytes (strBytes (String.mk (List.replicate 30 'é')))
      ≠ strBytes (String.mk (List.replicate 30 'é')) :=
  ⟨by decide, by decide, by decide⟩

/-- C6 amended: truncation operates on the byte length Go measures: a name
of at most 50 UTF-8 bytes is displayed unmodified, and a longer one is cut
to its first 49 bytes followed by the three-byte ellipsis character, 52
bytes in all; for a name of ASCII characters, where bytes and characters
coincide, that is exactly the first 49 characters followed by the one
ellipsis character, a displayed length of 50 characters. -/
theorem c6_truncate_bytes (s : String) :
    ((strBytes s).length ≤ 50 → truncateBytes (strBytes s) = strBytes s) ∧
    (50 < (strBytes s).length →
      truncateBytes (strBytes s) =
        (strBytes s).take 49 ++ [0xE2, 0x80, 0xA6] ∧
      (truncateBytes (strBytes s)).length = 52) ∧
    (50 < (strBytes s).length → (∀ c ∈ s.data, c.toNat < 128) →
      truncateBytes (strBytes s) =
        strBytes (String.mk (s.data.take 49)) ++ strBytes "…") := by
  refine ⟨?_, ?_, ?_⟩
  · intro h
    unfold truncateBytes maxNameLen
    rw [if_pos h]
  · intro h
    have hn : ¬ (strBytes s).length ≤ maxNameLen := by
      unfold maxNameLen
      omega
    unfold truncateBytes
    rw [if_neg hn]
    refine ⟨rfl, ?_⟩
    simp only [List.length_append, List.length_take, List.length_cons,
      List.length_nil, maxNameLen]
    omega
  · intro h hascii
    have h49 : ∀ c ∈ s.data.take 49, c.toNat < 128 :=
      fun c hc => hascii c (List.take_subset _ _ hc)
    have hb : strBytes s = s.data.map Char.toNat := strBytes_ascii s.data hascii
    have hb2 : strBytes (String.mk (s.data.take 49)) =
        (s.data.take 49).map Char.toNat := strBytes_ascii _ h49
    have hell : strBytes "…" = [0xE2, 0x80, 0xA6] := by decide
    have hn : ¬ (strBytes s).length ≤ maxNameLen := by
      unfold maxNameLen
      omega
    unfold truncateBytes
    rw [if_neg hn, hb, hb2, hell, List.map_take]
    simp [maxNameLen]

/-- C6 amended witness: a 60-byte ASCII name is cut to its first 49
characters plus the ellipsis character. -/
theorem c6_truncate_bytes_witness :
    truncateBytes (strBytes (String.mk (List.replicate 60 'a'))) =
      strBytes (String.mk ((List.replicate 60 'a').take 49)) ++ strBytes "…" :=
  (c6_truncate_bytes (String.mk (List.replicate 60 'a'))).2.2 (by decide)
    (by decide)

/-- C10: an argument that begins with a dash but is none of the recognized
flags, including the bare dash, leaves the parser state unchanged: it does
not become the target, raises no error, and does not affect the flags. -/
theorem c10_unknown_dash_ignored (a : String) (showAll filesOnly : Bool)
    (target : String) (rest : List String)
    (hmem : a ∉ (["-a", "--all", "-f", "--files", "-h", "--help"] : List String))
    (hpre : hasPrefixStr a "-" = true) :
    parseLoop showAll filesOnly target (a :: rest) =
      parseLoop showAll filesOnly target rest := by
  simp only [List.mem_cons, List.mem_singleton, not_or] at hmem
  obtain ⟨h1, h2, h3, h4, h5, h6⟩ := hmem
  simp [parseLoop, h1, h2, h3, h4, h5, hpre]
  simp [h6]

/-- C10 witness: the arguments -x and the bare - are both ignored. -/
theorem c10_unknown_dash_ignored_witness :
    parseLoop false false "." ["-x"] = parseLoop false false "." [] ∧
    parseLoop false false "." ["-"] = parseLoop false false "." [] :=
  ⟨c10_unknown_dash_ignored "-x" false false "." [] (by decide) (by decide),
   c10_unknown_dash_ignored "-" false false "." [] (by decide) (by decide)⟩

theorem buildItems_len_showAll (children : List DirChild)
    (h : ∀ c ∈ children, c.infoOk = true) :
    (buildItems true false children).length = children.length := by
  induction children with
  | nil => rfl
  | cons c cs ih =>
    have hc := h c (List.mem_cons_self c cs)
    have hcs : ∀ x ∈ cs, x.infoOk = true :=
      fun x hx => h x (List.mem_cons_of_mem c hx)
    simp [buildItems, hc, ih hcs]

theorem buildItems_len_default (children : List DirChild)
    (h : ∀ c ∈ children, c.infoOk = true) :
    (buildItems false false children).length =
      children.length -
        (children.filter (fun c => hasPrefixStr c.name ".")).length := by
  induction children with
  | nil => rfl
  | cons c cs ih =>
    have hc := h c (List.mem_cons_self c cs)
    have hcs : ∀ x ∈ cs, x.infoOk = true :=
      fun x hx => h x (List.mem_cons_of_mem c hx)
    have hle : (cs.filter (fun c => hasPrefixStr c.name ".")).length ≤ cs.length :=
      List.length_filter_le _ _
    cases hdot : hasPrefixStr c.name "." with
    | true =>
      simp [buildItems, hdot, hc, List.filter_cons, ih hcs]
    | false =>
      simp [buildItems, hdot, hc, List.filter_cons, ih hcs]
      omega

/-- C4: over a directory whose children all have readable metadata, with N
children of which H are hidden (name begins with a dot), the default
invocation lists exactly N - H entries and the all invocation lists N. -/
theorem c4_hidden_filter_counts (children : List DirChild)
    (h : ∀ c ∈ children, c.infoOk = true) :
    (listDir false false children).length =
      children.length -
        (children.filter (fun c => hasPrefixStr c.name ".")).length ∧
    (listDir true false children).length = children.length := by
  have hp1 := (List.perm_insertionSort (entLE Char.toLower)
    (buildItems false false children)).length_eq
  have hp2 := (List.perm_insertionSort (entLE Char.toLower)
    (buildItems true false children)).length_eq
  unfold listDir sortEntries sortEntriesWith
  rw [hp1, hp2, buildItems_len_default children h, buildItems_len_showAll children h]
  exact ⟨rfl, rfl⟩

/-- C4 witness: two readable children, one hidden: the default invocation
lists one entry, the all invocation lists two. -/
theorem c4_hidden_filter_counts_witness :
    (listDir false false
      [⟨".hidden", FType.file, true, 1, none⟩, ⟨"x", FType.file, true, 2, none⟩]).length =
      2 - 1 ∧
    (listDir true false
      [⟨".hidden", FType.file, true, 1, none⟩, ⟨"x", FType.file, true, 2, none⟩]).length = 2 := by
  have h := c4_hidden_filter_counts
    [⟨".hidden", FType.file, true, 1, none⟩, ⟨"x", FType.file, true, 2, none⟩]
    (by decide)
  exact ⟨h.1.trans (by decide), h.2⟩

theorem mem_buildItems_broken_symlink (sa fo : Bool) (children : List DirChild)
    (c : DirChild) (hmem : c ∈ children) (hsym : c.ftype = FType.symlink)
    (hres : c.resolved = none) (hinfo : c.infoOk = true)
    (hvis : hasPrefixStr c.name "." = false ∨ sa = true) :
    ({ name := c.name, isDir := false, isSym := true, size := c.size,
       dot := hasPrefixStr c.name ".", ext := extOf c.name } : Entry)
      ∈ buildItems sa fo children := by
  induction children with
  | nil => cases hmem
  | cons x xs ih =>
    rcases List.mem_cons.mp hmem with rfl | htail
    · have hdir : effectiveIsDir c = false := by
        simp [effectiveIsDir, hsym, hres]
      have hskip : (hasPrefixStr c.name "." && !sa) = false := by
        rcases hvis with hv | hv
        · simp [hv]
        · simp [hv]
      simp [buildItems, hskip, hinfo, hdir, hsym]
    · have hrec := ih htail
      simp only [buildItems]
      split
      · exact hrec
      · split
        · exact hrec
        · split
          · exact hrec
          · exact List.mem_cons_of_mem _ hrec

/-- C5: a symlink child whose resolution fails, with readable own metadata
and not filtered out as hidden, is still listed (the run does not abort),
its effective directory flag is false (it is grouped and counted as a
file), and its displayed size is its own link metadata's size. -/
theorem c5_broken_symlink_listed (showAll filesOnly : Bool)
    (children : List DirChild) (c : DirChild) (hmem : c ∈ children)
    (hsym : c.ftype = FType.symlink) (hres : c.resolved = none)
    (hinfo : c.infoOk = true)
    (hvis : hasPrefixStr c.name "." = false ∨ showAll = true) :
    ({ name := c.name, isDir := false, isSym := true, size := c.size,
       dot := hasPrefixStr c.name ".", ext := extOf c.name } : Entry)
      ∈ listDir showAll filesOnly children :=
  (List.perm_insertionSort (entLE Char.toLower) _).mem_iff.mpr
    (mem_buildItems_broken_symlink showAll filesOnly children c hmem hsym hres
      hinfo hvis)

/-- C5 witness: the broken symlink dead is listed as a file of size 7. -/
theorem c5_broken_symlink_listed_witness :
    ({ name := "dead", isDir := false, isSym := true, size := 7,
       dot := hasPrefixStr "dead" ".", ext := extOf "dead" } : Entry)
      ∈ listDir false false [⟨"dead", FType.symlink, true, 7, none⟩] :=
  c5_broken_symlink_listed false false _ ⟨"dead", FType.symlink, true, 7, none⟩
    (List.mem_cons_self _ _) rfl rfl rfl (Or.inl (by decide))

theorem buildItems_all_dirs_filesOnly (sa : Bool) (children : List DirChild)
    (h : ∀ c ∈ children, c.ftype = FType.dir) :
    buildItems sa true children = [] := by
  induction children with
  | nil => rfl
  | cons c cs ih =>
    have hc : c.ftype = FType.dir := h c (List.mem_cons_self c cs)
    have hcs : ∀ x ∈ cs, x.ftype = FType.dir :=
      fun x hx => h x (List.mem_cons_of_mem c hx)
    have hd : effectiveIsDir c = true := by simp [effectiveIsDir, hc]
    simp [buildItems, hd, ih hcs]

/-- C7: files-only mode over a directory whose children are all
subdirectories filters everything out, so the program prints the distinct
empty message instead of a table (and hence no dirs term anywhere); and in
general the footer is the comma-join of the pluralized dir and file counts
with every zero count omitted. -/
theorem c7_files_only_empty_and_footer :
    (∀ (showAll : Bool) (children : List DirChild),
      (∀ c ∈ children, c.ftype = FType.dir) →
      listOutput showAll true children = ["  empty"]) ∧
    footerStr 0 0 = "" ∧
    (∀ f, 0 < f → footerStr 0 f = pluralize f "file") ∧
    (∀ d, 0 < d → footerStr d 0 = pluralize d "dir") ∧
    (∀ d f, 0 < d → 0 < f →
      footerStr d f = pluralize d "dir" ++ ", " ++ pluralize f "file") := by
  refine ⟨?_, rfl, ?_, ?_, ?_⟩
  · intro sa children h
    simp [listOutput, listDir, sortEntries, sortEntriesWith,
      buildItems_all_dirs_filesOnly sa children h]
  · intro f hf
    simp [footerStr, joinComma, hf]
  · intro d hd
    simp [footerStr, joinComma, hd]
  · intro d f hd hf
    simp [footerStr, joinComma, hd, hf]

/-- C7 witness: files-only over one subdirectory prints the empty message;
a footer with two dirs and one file joins both pluralized terms. -/
theorem c7_files_only_empty_and_footer_witness :
    listOutput false true [⟨"sub", FType.dir, true, 4096, none⟩] = ["  empty"] ∧
    footerStr 2 1 = "2 dirs, 1 file" := by
  constructor
  · exact c7_files_only_empty_and_footer.1 false
      [⟨"sub", FType.dir, true, 4096, none⟩] (by decide)
  · have h := c7_files_only_empty_and_footer.2.2.2.2 2 1 (by decide) (by decide)
    rw [h]
    decide

/-- C8: a target that cannot be listed yields exactly one line on standard
error, nothing on standard output, and exit code 1; help and every
successful listing (the empty one included) exit 0 with empty stderr. -/
theorem c8_exit_codes (args : List String)
    (fs : String → Except String (List DirChild)) :
    (∀ (sa fo : Bool) (t msg : String),
      parseArgs args = ParseResult.run sa fo t → fs t = Except.error msg →
      runLs args fs =
        { stdoutLines := [], stderrLines := ["  error: " ++ msg], exitCode := 1 }) ∧
    (parseArgs args = ParseResult.help →
      runLs args fs = { stdoutLines := usageLines, stderrLines := [], exitCode := 0 }) ∧
    (∀ (sa fo : Bool) (t : String) (children : List DirChild),
      parseArgs args = ParseResult.run sa fo t → fs t = Except.ok children →
      (runLs args fs).exitCode = 0 ∧ (runLs args fs).stderrLines = []) := by
  refine ⟨?_, ?_, ?_⟩
  · intro sa fo t msg hp hf
    simp [runLs, hp, hf]
  · intro hp
    simp [runLs, hp]
  · intro sa fo t children hp hf
    simp [runLs, hp, hf]

/-- C8 witness: a failing target produces one stderr line, no stdout and
exit code 1. -/
theorem c8_exit_codes_witness :
    runLs ["nope"] (fun _ => Except.error "no such directory") =
      { stdoutLines := [], stderrLines := ["  error: no such directory"],
        exitCode := 1 } :=
  (c8_exit_codes ["nope"] (fun _ => Except.error "no such directory")).1
    false false "nope" "no such directory" (by decide) rfl

theorem countDirs_add_countFiles (items : List Entry) :
    countDirs items + countFiles items = items.length := by
  induction items with
  | nil => rfl
  | cons it its ih =>
    cases h : it.isDir <;>
      simp [countDirs, countFiles, List.filter_cons, h] at ih ⊢ <;>
      omega

/-- C9: the dir and file counts of the footer sum to exactly the number of
entry rows rendered; every entry is counted in exactly one category by its
effective directory flag, and a resolvable symlink carries its target's
directory flag. -/
theorem c9_footer_counts_partition (items : List Entry) :
    countDirs items + countFiles items =
      (items.map (renderRow (maxNameOf items) (maxExtOf items))).length ∧
    renderListing items =
      [""] ++ [headerLine (maxNameOf items) (maxExtOf items),
               sepLine (maxNameOf items) (maxExtOf items)]
        ++ items.map (renderRow (maxNameOf items) (maxExtOf items))
        ++ ["", "  " ++ footerStr (countDirs items) (countFiles items), ""] ∧
    (∀ (c : DirChild) (d : Bool),
      c.ftype = FType.symlink → c.resolved = some d → effectiveIsDir c = d) := by
  refine ⟨?_, rfl, ?_⟩
  · rw [List.length_map]
    exact countDirs_add_countFiles items
  · intro c d h1 h2
    simp [effectiveIsDir, h1, h2]

/-- C9 witness: a symlink resolving to a directory is classified as one. -/
theorem c9_footer_counts_partition_witness :
    effectiveIsDir ⟨"lnk", FType.symlink, true, 0, some true⟩ = true :=
  (c9_footer_counts_partition []).2.2 ⟨"lnk", FType.symlink, true, 0, some true⟩
    true rfl rfl

theorem clampIdx_spec (b i : Nat)
    (h : (0 < i ∧ i < 4 ∧ 1024 ^ i ≤ b ∧ b < 1024 ^ (i + 1)) ∨
         (i = 4 ∧ 1024 ^ 4 ≤ b)) :
    clampIdx b = i := by
  rcases h with ⟨h1, h2, h3, h4⟩ | ⟨rfl, h3⟩
  · interval_cases i <;>
    · norm_num at h3 h4
      simp only [clampIdx, log1024floor]
      norm_num
      split_ifs <;> omega
  · norm_num at h3
    simp only [clampIdx, log1024floor]
    norm_num
    split_ifs <;> omega

/-- C2: the size formatter prints 0 as 0 B; for positive byte counts the
unit is at index floor(log1024 b) clamped to T, and with val the float64
value of b scaled by 1024^i (float64Nat is the identity below 2^53, so val
is the exact scaled count for every ordinary size), the number is printed
with no decimals when the unit is bytes or val is at least 10 (truncating
division), and with one rounded decimal digit otherwise; in particular the
five documented boundary values render as stated. -/
theorem c2_human_size :
    humanSize 0 = "0 B" ∧ humanSize 999 = "999 B" ∧ humanSize 1024 = "1.0 K" ∧
    humanSize 10240 = "10 K" ∧ humanSize 1048576 = "1.0 M" ∧
    (∀ b : Nat, b < 2 ^ 53 → float64Nat b = b) ∧
    (∀ b : Nat, 0 < b → b < 1024 → humanSizeParts b = (toString b, "B")) ∧
    (∀ b i : Nat,
      (0 < i ∧ i < 4 ∧ 1024 ^ i ≤ b ∧ b < 1024 ^ (i + 1)) ∨
        (i = 4 ∧ 1024 ^ 4 ≤ b) →
      (humanSizeParts b).2 = sizeUnits.getD i "B" ∧
      (10 * 1024 ^ i ≤ float64Nat b →
        (humanSizeParts b).1 = toString (float64Nat b / 1024 ^ i)) ∧
      (float64Nat b < 10 * 1024 ^ i →
        (humanSizeParts b).1 = oneDecimal (float64Nat b) i)) := by
  refine ⟨by decide, by decide, by decide, by decide, by decide, ?_, ?_, ?_⟩
  · intro b hb
    unfold float64Nat ulpOf roundHalfToEven
    rw [if_pos hb]
    simp [Nat.mod_one, Nat.div_one]
  · intro b hb0 hb
    have hi : clampIdx b = 0 := by
      simp only [clampIdx, log1024floor]
      split_ifs <;> omega
    simp only [humanSizeParts, hi]
    rw [if_neg (show ¬ b = 0 by omega)]
    simp
  · intro b i h
    have hi := clampIdx_spec b i h
    have hb0 : b ≠ 0 := by
      rcases h with ⟨_, _, h3, _⟩ | ⟨rfl, h3⟩
      · have hp : 0 < 1024 ^ i := pow_pos (by norm_num) i
        exact (lt_of_lt_of_le hp h3).ne'
      · have hp : (0 : Nat) < 1024 ^ 4 := by norm_num
        exact (lt_of_lt_of_le hp h3).ne'
    have hipos : i ≠ 0 := by
      rcases h with ⟨h1, _, _, _⟩ | ⟨rfl, _⟩
      · omega
      · decide
    simp only [humanSizeParts, hi]
    rw [if_neg hb0, if_neg hipos]
    by_cases h10 : 10 * 1024 ^ i ≤ float64Nat b
    · rw [if_pos h10]
      exact ⟨rfl, fun _ => rfl, fun hlt => absurd h10 (not_le.mpr hlt)⟩
    · rw [if_neg h10]
      exact ⟨rfl, fun hle => absurd hle h10, fun _ => rfl⟩

/-- C2 witness: 500 bytes print as 500 B, a gigabyte carries unit G, and at
b = 2^53 + 2^40 - 1 the float64 conversion rounds up so the program prints
8193 (not 8192) in the T branch. -/
theorem c2_human_size_witness :
    humanSizeParts 500 = ("500", "B") ∧ (humanSizeParts 1073741824).2 = "G" ∧
    (humanSizeParts 9008298766368767).1 = "8193" := by
  refine ⟨?_, ?_, ?_⟩
  · have h := c2_human_size.2.2.2.2.2.2.1 500 (by decide) (by decide)
    rw [h]
    decide
  · have h := c2_human_size.2.2.2.2.2.2.2 1073741824 3 (Or.inl (by norm_num))
    exact h.1.trans (by decide)
  · have h := c2_human_size.2.2.2.2.2.2.2 9008298766368767 4 (Or.inr (by norm_num))
    exact (h.2.1 (by decide)).trans (by decide)

end Ls
